import Mathlib

/-!
Verification of the `market_backtest` metrics engine and its data/alignment
layer against its natural-language specification.

The Rust source operates on `f64`; the embedding models that arithmetic over
the real numbers `ℝ`, which is how the specification phrases every contract
("real-number sequence", exact formulas for mean, variance, log returns).
Each definition below mirrors one Rust function of the repository:

* `daily_returns`, `calc_stats`, `monte_carlo_sharpe`, `beta`, `alpha`
  come from `src/metrics.rs`;
* `statrsMean`, `statrsVariance`, `statrsCovariance` embed the `statrs`
  crate's `Statistics` trait operations that `metrics.rs` calls (arithmetic
  mean, and the Bessel-corrected `(n-1)`-divisor variance/covariance that
  `statrs` documents for `variance`/`covariance`);
* `load_risk_free_series` comes from `src/data.rs` (the per-row extraction
  loop over already-deserialized rows);
* `align` embeds the inline risk-free series alignment block of
  `src/main.rs` (clone + `resize` with `*series.last().unwrap()`, or prefix
  slice), with `Option` capturing the `unwrap` panic as `none`.

The Monte Carlo simulator's randomness is embedded by passing the ambient
thread-local generator explicitly: a standard-normal sample stream
`s : ℕ → ℝ` together with the stream position at which the invocation
starts, since `thread_rng()`'s state persists on the thread across calls.
`rand_distr::Normal::new(avr, std_dev).sample` is modelled as
`avr + std_dev * s k`, the mean/scale transform of a standard-normal draw.
-/

namespace MarketBacktest

/-- The `Candle` record from `src/data.rs`: a calendar date (modelled as an
integer day number) plus OHLC and volume fields. -/
structure Candle where
  date : ℤ
  open_ : ℝ
  high : ℝ
  low : ℝ
  close : ℝ
  volume : ℝ

instance : Inhabited Candle := ⟨⟨0, 0, 0, 0, 0, 0⟩⟩

/-- The `TRADING_DAYS_PER_YEAR` constant from `src/metrics.rs`. -/
def TRADING_DAYS_PER_YEAR : ℕ := 252

noncomputable section

/-- The `statrs` `Statistics::mean` operation on a slice: sum divided by length. -/
def statrsMean (xs : List ℝ) : ℝ := xs.sum / xs.length

/-- The `statrs` `Statistics::variance` operation on a slice: unbiased sample variance,
sum of squared deviations from the mean divided by `n - 1`. -/
def statrsVariance (xs : List ℝ) : ℝ :=
  ((xs.map fun v => (v - statrsMean xs) ^ 2).sum) / ((xs.length : ℝ) - 1)

/-- The `statrs` `Statistics::covariance` operation of two equal-length slices: unbiased
sample covariance, sum of products of deviations divided by `n - 1`. -/
def statrsCovariance (xs ys : List ℝ) : ℝ :=
  (((xs.zip ys).map fun p => (p.1 - statrsMean xs) * (p.2 - statrsMean ys)).sum) /
    ((xs.length : ℝ) - 1)

/-- Embeds `daily_returns` from `src/metrics.rs`: empty output for fewer than two
candles, otherwise `ln(close[i] / close[i-1])` for `i = 1 .. len-1`,
pushed in order. -/
def daily_returns (candles : List Candle) : List ℝ :=
  if candles.length < 2 then []
  else
    (List.range (candles.length - 1)).map fun i =>
      Real.log ((candles.getD (i + 1) default).close / (candles.getD i default).close)

/-- Embeds `calc_stats` from `src/metrics.rs`: `none` when the length is below two,
otherwise the `statrs` mean paired with the square root of the
`(n-1)`-divisor variance computed by the explicit `map`/`sum` loop. -/
def calc_stats (returns : List ℝ) : Option (ℝ × ℝ) :=
  if returns.length < 2 then none
  else
    let mean := statrsMean returns
    let variance := ((returns.map fun v => (v - mean) ^ 2).sum) / ((returns.length : ℝ) - 1)
    let std_dev := Real.sqrt variance
    some (mean, std_dev)

/-- One simulated year of daily returns inside `monte_carlo_sharpe`:
`TRADING_DAYS_PER_YEAR` successive draws from `Normal(avr, std_dev)`,
taken from the ambient standard-normal stream `s` starting at position `k`. -/
def simPath (avr std_dev : ℝ) (s : ℕ → ℝ) (k : ℕ) : List ℝ :=
  (List.range TRADING_DAYS_PER_YEAR).map fun j => avr + std_dev * s (k + j)

/-- The trial loop of `monte_carlo_sharpe`: for each simulation, draw a
year-long path, compute its own `calc_stats`, annualize, and push the Sharpe
ratio only when the annualized volatility is strictly positive. Each trial
advances the ambient generator by `TRADING_DAYS_PER_YEAR` samples. -/
def mcTrials (avr std_dev rf : ℝ) (s : ℕ → ℝ) : ℕ → ℕ → List ℝ
  | 0, _ => []
  | n + 1, k =>
    let sim_ret := simPath avr std_dev s k
    let rest := mcTrials avr std_dev rf s n (k + TRADING_DAYS_PER_YEAR)
    match calc_stats sim_ret with
    | some (sim_avr, sim_std) =>
      let annual_ret := sim_avr * (TRADING_DAYS_PER_YEAR : ℝ)
      let annual_vol := sim_std * Real.sqrt (TRADING_DAYS_PER_YEAR : ℝ)
      if 0 < annual_vol then ((annual_ret - rf) / annual_vol) :: rest else rest
    | none => rest

/-- Embeds `monte_carlo_sharpe` from `src/metrics.rs`. The Rust function draws from
`thread_rng()`; here the thread-local generator is made explicit as the
standard-normal stream `s` and the position `k` its persistent state has
reached when the call begins. If `std_dev == 0.0` the function returns the
empty vector before touching the generator. -/
def monte_carlo_sharpe (avr std_dev rf : ℝ) (n_sims : ℕ) (s : ℕ → ℝ) (k : ℕ) : List ℝ :=
  if std_dev = 0 then []
  else mcTrials avr std_dev rf s n_sims k

/-- Embeds `beta` from `src/metrics.rs`: `none` on length mismatch or length below
two, `none` on a zero `statrs` benchmark variance, otherwise the ratio of
the `statrs` covariance to that variance. -/
def beta (asset_rets market_rets : List ℝ) : Option ℝ :=
  if asset_rets.length ≠ market_rets.length ∨ asset_rets.length < 2 then none
  else
    let cov := statrsCovariance asset_rets market_rets
    let var_market := statrsVariance market_rets
    if var_market = 0 then none
    else some (cov / var_market)

/-- Embeds `alpha` from `src/metrics.rs`: guards that the three series have equal
length, forms the elementwise excess series, takes `beta` of the excess
series, and returns `mean(excessAsset) - beta * mean(excessBenchmark)`
(means computed as `sum / len`), propagating `beta`'s absence. -/
def alpha (asset_rets market_rets rf_rets : List ℝ) : Option ℝ :=
  if asset_rets.length ≠ market_rets.length ∨ asset_rets.length ≠ rf_rets.length then none
  else
    let excess_asset := (asset_rets.zip rf_rets).map fun p => p.1 - p.2
    let excess_market := (market_rets.zip rf_rets).map fun p => p.1 - p.2
    match beta excess_asset excess_market with
    | none => none
    | some b =>
      let mean_asset := excess_asset.sum / (excess_asset.length : ℝ)
      let mean_market := excess_market.sum / (excess_market.length : ℝ)
      some (mean_asset - b * mean_market)

/-- Population (divisor `n`) variance, as the specification's words for the
beta contract state it; to be compared with the `statrs` sample variance the
code actually calls. -/
def popVariance (xs : List ℝ) : ℝ :=
  ((xs.map fun v => (v - statrsMean xs) ^ 2).sum) / (xs.length : ℝ)

/-- Population (divisor `n`) covariance, as the specification's words for
the beta contract state it. -/
def popCovariance (xs ys : List ℝ) : ℝ :=
  (((xs.zip ys).map fun p => (p.1 - statrsMean xs) * (p.2 - statrsMean ys)).sum) /
    (xs.length : ℝ)

/-- The `MaturityValue` wrapper from `src/data.rs`: a cell deserialized with
`csv::invalid_option`, so unparseable text becomes `none` instead of an
error. -/
structure MaturityValue where
  val : Option ℝ

/-- The `RiskFreeRateRow` record from `src/data.rs`: a date plus a flattened mapping
from maturity label to optional cell value, modelled as an association
list (a column absent from the row is simply not in the list). -/
structure RiskFreeRateRow where
  date : ℤ
  maturities : List (String × MaturityValue)

/-- The row-processing loop of `load_risk_free_series` in `src/data.rs`,
over the already-deserialized rows: look up the requested maturity column,
skip the row when the lookup or the cell is absent, otherwise convert the
percentage to a decimal and compound it to a per-period rate via
`(1 + annual)^(1/252) - 1` and push it. -/
def load_risk_free_series (rows : List RiskFreeRateRow) (maturity : String) : List ℝ :=
  match rows with
  | [] => []
  | row :: rest =>
    match (row.maturities.lookup maturity).bind (fun rate => rate.val) with
    | some rate =>
      let annual := rate / 100
      let daily := (1 + annual) ^ ((1 : ℝ) / 252) - 1
      daily :: load_risk_free_series rest maturity
    | none => load_risk_free_series rest maturity

/-- The inline risk-free alignment block of `src/main.rs`: when the series
is shorter than the target length, clone it and `resize` to the target,
filling with `*series.last().unwrap()`; otherwise take the prefix of the
target length. The `unwrap` of a missing last element (empty series,
shorter than a positive target) is a Rust panic, modelled as `none`. -/
def align (series : List ℝ) (target : ℕ) : Option (List ℝ) :=
  if series.length < target then
    series.getLast?.map fun lastVal =>
      series ++ List.replicate (target - series.length) lastVal
  else
    some (series.take target)

end

/-! ## Theorems -/

/-- C1: `calc_stats` returns no value exactly when the series length is
less than 2; for length `n ≥ 2` it returns the pair of the arithmetic mean
and the square root of the sum of squared deviations from the mean divided
by `n - 1` (the unbiased sample divisor). -/
theorem calc_stats_spec (rs : List ℝ) :
    (calc_stats rs = none ↔ rs.length < 2) ∧
    (2 ≤ rs.length →
      calc_stats rs = some (rs.sum / (rs.length : ℝ),
        Real.sqrt (((rs.map fun v => (v - rs.sum / (rs.length : ℝ)) ^ 2).sum) /
          ((rs.length : ℝ) - 1)))) := by
  constructor
  · unfold calc_stats
    by_cases h : rs.length < 2
    · simp [h]
    · simp [h]
  · intro h
    unfold calc_stats
    rw [if_neg (by omega)]
    simp [statrsMean]

/-- Witness for C1 at the series `[1, 2, 3]`: mean `2`, standard deviation
`sqrt(((1-2)^2 + 0 + (3-2)^2) / 2) = 1`. -/
theorem calc_stats_spec_witness : calc_stats [(1 : ℝ), 2, 3] = some (2, 1) := by
  have h := (calc_stats_spec [(1 : ℝ), 2, 3]).2 (by simp)
  rw [h]
  norm_num [Real.sqrt_eq_one]

/-- C2: `daily_returns` outputs, in order, `ln(close[i+1] / close[i])` for
each consecutive pair, so its length is the input length minus one, and
inputs of length 0 or 1 give the empty sequence. -/
theorem daily_returns_spec (cs : List Candle) :
    (daily_returns cs).length = cs.length - 1 ∧
    (cs.length < 2 → daily_returns cs = []) ∧
    (∀ i, i + 1 < cs.length →
      (daily_returns cs).getD i 0 =
        Real.log ((cs.getD (i + 1) default).close / (cs.getD i default).close)) := by
  unfold daily_returns
  by_cases h : cs.length < 2
  · rw [if_pos h]
    refine ⟨by simpa using by omega, fun _ => rfl, fun i hi => absurd hi (by omega)⟩
  · rw [if_neg h]
    refine ⟨by simp, fun h2 => absurd h2 h, fun i hi => ?_⟩
    have hlt : i < cs.length - 1 := by omega
    simp [List.getD_eq_getElem?_getD, List.getElem?_map, List.getElem?_range, hlt]

/-- Witness for C2 at a two-candle series with closes `100` and `110`:
one return, equal to `ln(110 / 100)`. -/
theorem daily_returns_spec_witness :
    (daily_returns [⟨0, 0, 0, 0, 100, 0⟩, ⟨0, 0, 0, 0, 110, 0⟩]).length = 1 ∧
    (daily_returns [⟨0, 0, 0, 0, 100, 0⟩, ⟨0, 0, 0, 0, 110, 0⟩]).getD 0 0 =
      Real.log ((110 : ℝ) / 100) := by
  have h := daily_returns_spec [⟨0, 0, 0, 0, 100, 0⟩, ⟨0, 0, 0, 0, 110, 0⟩]
  exact ⟨h.1, by simpa using h.2.2 0 (by simp)⟩

/-- C5: with a daily standard deviation of exactly 0, `monte_carlo_sharpe`
returns the empty sequence immediately, for every mean, risk-free rate,
trial count and ambient generator state — in particular no trial loop runs
and no division by the volatility is performed. -/
theorem monte_carlo_sharpe_zero_vol (avr rf : ℝ) (n_sims : ℕ) (s : ℕ → ℝ) (k : ℕ) :
    monte_carlo_sharpe avr 0 rf n_sims s k = [] := by
  simp [monte_carlo_sharpe]

/-- C6: a row whose target maturity column is absent or unparseable is
skipped (no appended value, no error); a row whose cell holds the
percentage `r` contributes exactly `(1 + r/100)^(1/252) - 1`, the compound
per-period conversion. -/
theorem load_risk_free_series_spec (row : RiskFreeRateRow) (rest : List RiskFreeRateRow)
    (maturity : String) :
    ((row.maturities.lookup maturity).bind (fun rate => rate.val) = none →
      load_risk_free_series (row :: rest) maturity = load_risk_free_series rest maturity) ∧
    (∀ r, (row.maturities.lookup maturity).bind (fun rate => rate.val) = some r →
      load_risk_free_series (row :: rest) maturity =
        ((1 + r / 100) ^ ((1 : ℝ) / 252) - 1) :: load_risk_free_series rest maturity) := by
  constructor
  · intro h
    simp only [load_risk_free_series, h]
  · intro r h
    simp only [load_risk_free_series, h]

/-- Witness for C6: a row carrying `5%` in column `"1 Mo"` appends
`(1 + 5/100)^(1/252) - 1`; a row with an unparseable cell and a row
missing the column are both skipped. -/
theorem load_risk_free_series_spec_witness :
    load_risk_free_series [⟨0, [("1 Mo", ⟨some 5⟩)]⟩] "1 Mo" =
      [(1 + (5 : ℝ) / 100) ^ ((1 : ℝ) / 252) - 1] ∧
    load_risk_free_series [⟨0, [("1 Mo", ⟨none⟩)]⟩] "1 Mo" = [] ∧
    load_risk_free_series [⟨0, [("3 Mo", ⟨some 5⟩)]⟩] "1 Mo" = [] := by
  refine ⟨?_, ?_, ?_⟩
  · exact (load_risk_free_series_spec _ [] _).2 5 (by simp [List.lookup])
  · exact (load_risk_free_series_spec _ [] _).1 (by simp [List.lookup])
  · exact (load_risk_free_series_spec _ [] _).1 (by simp [List.lookup])

/-- C7: on a non-empty risk-free series the aligner yields a sequence of
exactly the target length: the input padded by repeating its final value
when shorter than the target, the length-target prefix otherwise. -/
theorem align_spec (series : List ℝ) (target : ℕ) (h : series ≠ []) :
    ∃ out, align series target = some out ∧ out.length = target ∧
      (series.length < target →
        out = series ++ List.replicate (target - series.length) (series.getLast h)) ∧
      (target ≤ series.length → out = series.take target) := by
  unfold align
  by_cases hlt : series.length < target
  · rw [if_pos hlt, List.getLast?_eq_getLast _ h]
    exact ⟨_, rfl, by simp; omega, fun _ => rfl, fun hle => absurd hlt (by omega)⟩
  · rw [if_neg hlt]
    exact ⟨_, rfl, by simp; omega, fun hlt2 => absurd hlt2 hlt, fun _ => rfl⟩

/-- Witness for C7: `[1, 2]` aligned to target length 5 gives
`[1, 2, 2, 2, 2]`; aligned to target length 1 it gives `[1]`. -/
theorem align_spec_witness :
    align [(1 : ℝ), 2] 5 = some [1, 2, 2, 2, 2] ∧
    align [(1 : ℝ), 2] 1 = some [1] := by
  constructor
  · obtain ⟨out, he, -, hpad, -⟩ := align_spec [(1 : ℝ), 2] 5 (by simp)
    rw [he, hpad (by simp)]
    simp [List.replicate]
  · obtain ⟨out, he, -, -, hpre⟩ := align_spec [(1 : ℝ), 2] 1 (by simp)
    rw [he, hpre (by simp)]
    rfl

/-- C8: at the failing input — an empty risk-free series with a positive
target length — the source aligner produces no value at all: the embedded
`unwrap` of the missing last element is the Rust panic, not a named
error result. -/
theorem align_empty_fails : align ([] : List ℝ) 1 = none := rfl

/-- C3: `beta` returns the population covariance divided by the population
variance of the benchmark whenever the series have equal length `≥ 2` and
the benchmark has nonzero population variance (the `(n-1)` divisors of the
`statrs` estimators cancel in the ratio), and returns no value on a length
mismatch, a length below two, or a benchmark of zero variance. -/
theorem beta_spec (a m : List ℝ) :
    (a.length = m.length → 2 ≤ a.length → popVariance m ≠ 0 →
      beta a m = some (popCovariance a m / popVariance m)) ∧
    ((a.length ≠ m.length ∨ a.length < 2 ∨ popVariance m = 0) → beta a m = none) := by
  constructor
  · intro h1 h2 h3
    unfold beta
    rw [if_neg (by omega)]
    have hm2 : 2 ≤ m.length := h1 ▸ h2
    have hn2 : (2 : ℝ) ≤ (m.length : ℝ) := by exact_mod_cast hm2
    have hd1 : ((m.length : ℝ) - 1) ≠ 0 := by linarith
    have hd0 : ((m.length : ℝ)) ≠ 0 := by linarith
    have hS : ((m.map fun v => (v - statrsMean m) ^ 2).sum) ≠ 0 := by
      intro h0
      exact h3 (by unfold popVariance; rw [h0]; simp)
    have hv : statrsVariance m ≠ 0 := div_ne_zero hS hd1
    rw [if_neg hv]
    congr 1
    unfold statrsVariance statrsCovariance popCovariance popVariance
    rw [h1]
    field_simp
  · intro hcase
    unfold beta
    by_cases hg : a.length ≠ m.length ∨ a.length < 2
    · rw [if_pos hg]
    · rw [if_neg hg]
      push_neg at hg
      obtain ⟨h1, h2⟩ := hg
      have hpv : popVariance m = 0 := by
        rcases hcase with h | h | h
        · exact absurd h1 h
        · omega
        · exact h
      have hd0 : ((m.length : ℝ)) ≠ 0 := by
        have : 2 ≤ m.length := by omega
        have : (2 : ℝ) ≤ (m.length : ℝ) := by exact_mod_cast this
        linarith
      have hS : ((m.map fun v => (v - statrsMean m) ^ 2).sum) = 0 := by
        have := hpv
        unfold popVariance at this
        rcases div_eq_zero_iff.mp this with h | h
        · exact h
        · exact absurd h hd0
      have hv : statrsVariance m = 0 := by
        unfold statrsVariance
        rw [hS]
        simp
      rw [if_pos hv]

/-- Witness for C3: `beta [1, 2] [1, 3] = 1/2` (population covariance
`1/2` over population variance `1`), and `beta [1] [1]` is absent because
a single point is below the minimum length. -/
theorem beta_spec_witness :
    beta [(1 : ℝ), 2] [1, 3] = some (1 / 2) ∧ beta [(1 : ℝ)] [1] = none := by
  constructor
  · have h := (beta_spec [(1 : ℝ), 2] [1, 3]).1 rfl (by simp)
      (by norm_num [popVariance, statrsMean])
    rw [h]
    norm_num [popVariance, popCovariance, statrsMean]
  · exact (beta_spec [(1 : ℝ)] [1]).2 (Or.inr (Or.inl (by norm_num)))

/-- C4: when the three series have equal length and the beta of the excess
series exists, `alpha` is `mean(excessAsset) - beta * mean(excessBenchmark)`
over the elementwise excess series; it is absent when the lengths are not
all equal or when the excess-series beta is absent. -/
theorem alpha_spec (a m r : List ℝ) :
    (∀ b, a.length = m.length → a.length = r.length →
      beta ((a.zip r).map fun p => p.1 - p.2) ((m.zip r).map fun p => p.1 - p.2) = some b →
      alpha a m r = some
        ((((a.zip r).map fun p => p.1 - p.2).sum) / (a.length : ℝ) -
          b * ((((m.zip r).map fun p => p.1 - p.2).sum) / (m.length : ℝ)))) ∧
    ((¬(a.length = m.length ∧ a.length = r.length) ∨
      beta ((a.zip r).map fun p => p.1 - p.2) ((m.zip r).map fun p => p.1 - p.2) = none) →
      alpha a m r = none) := by
  constructor
  · intro b h1 h2 hb
    unfold alpha
    rw [if_neg (by omega)]
    simp only [hb, List.length_map, List.length_zip]
    rw [min_eq_left (le_of_eq h2), min_eq_left (le_of_eq (h1 ▸ h2)), ← h1]
  · intro hcase
    unfold alpha
    by_cases hg : a.length ≠ m.length ∨ a.length ≠ r.length
    · rw [if_pos hg]
    · rw [if_neg hg]
      push_neg at hg
      have hb : beta ((a.zip r).map fun p => p.1 - p.2)
          ((m.zip r).map fun p => p.1 - p.2) = none := by
        rcases hcase with h | h
        · exact absurd ⟨hg.1, hg.2⟩ h
        · exact h
      simp only [hb]

/-- Witness for C4 at `asset = [1,2,3]`, `benchmark = [2,3,4]`,
`riskFree = [1,1,1]`: excess series `[0,1,2]` and `[1,2,3]`, excess beta
`1`, so alpha is `1 - 1 * 2 = -1`. -/
theorem alpha_spec_witness :
    alpha [(1 : ℝ), 2, 3] [2, 3, 4] [1, 1, 1] = some (-1) := by
  have hb : beta (([(1 : ℝ), 2, 3].zip [1, 1, 1]).map fun p => p.1 - p.2)
      (([(2 : ℝ), 3, 4].zip [1, 1, 1]).map fun p => p.1 - p.2) = some 1 := by
    have e1 : (([(1 : ℝ), 2, 3].zip [1, 1, 1]).map fun p => p.1 - p.2) = [0, 1, 2] := by
      norm_num [List.zip]
    have e2 : (([(2 : ℝ), 3, 4].zip [1, 1, 1]).map fun p => p.1 - p.2) = [1, 2, 3] := by
      norm_num [List.zip]
    rw [e1, e2]
    unfold beta
    rw [if_neg (by norm_num)]
    rw [if_neg (by norm_num [statrsVariance, statrsMean])]
    norm_num [statrsCovariance, statrsVariance, statrsMean]
  have h := (alpha_spec [(1 : ℝ), 2, 3] [2, 3, 4] [1, 1, 1]).1 1 rfl rfl hb
  rw [h]
  norm_num

/-- A sum of squared deviations is strictly positive as soon as the list
holds two distinct values, whatever center `mu` is used. -/
theorem sum_sq_deviations_pos (xs : List ℝ) (mu a b : ℝ) (ha : a ∈ xs) (hb : b ∈ xs)
    (hab : a ≠ b) : 0 < ((xs.map fun v => (v - mu) ^ 2).sum) := by
  obtain ⟨v, hv, hvm⟩ : ∃ v ∈ xs, v ≠ mu := by
    rcases eq_or_ne a mu with h | h
    · exact ⟨b, hb, h ▸ hab.symm⟩
    · exact ⟨a, ha, h⟩
  have hmem : (v - mu) ^ 2 ∈ xs.map fun v => (v - mu) ^ 2 := List.mem_map_of_mem _ hv
  have hpos : 0 < (v - mu) ^ 2 := pow_two_pos_of_ne_zero (sub_ne_zero.mpr hvm)
  have hle : (v - mu) ^ 2 ≤ (xs.map fun v => (v - mu) ^ 2).sum := by
    refine List.single_le_sum (fun x hx => ?_) _ hmem
    obtain ⟨w, -, rfl⟩ := List.mem_map.mp hx
    exact sq_nonneg _
  linarith

/-- Unfolding equation for `mcTrials` at zero remaining trials. -/
theorem mcTrials_zero (avr std_dev rf : ℝ) (s : ℕ → ℝ) (k : ℕ) :
    mcTrials avr std_dev rf s 0 k = [] := rfl

/-- Unfolding equation for `mcTrials` at a successor trial count. -/
theorem mcTrials_succ (avr std_dev rf : ℝ) (s : ℕ → ℝ) (n k : ℕ) :
    mcTrials avr std_dev rf s (n + 1) k =
      (match calc_stats (simPath avr std_dev s k) with
       | some (sim_avr, sim_std) =>
         if 0 < sim_std * Real.sqrt ((TRADING_DAYS_PER_YEAR : ℝ)) then
           ((sim_avr * (TRADING_DAYS_PER_YEAR : ℝ) - rf) /
             (sim_std * Real.sqrt ((TRADING_DAYS_PER_YEAR : ℝ)))) ::
             mcTrials avr std_dev rf s n (k + TRADING_DAYS_PER_YEAR)
         else mcTrials avr std_dev rf s n (k + TRADING_DAYS_PER_YEAR)
       | none => mcTrials avr std_dev rf s n (k + TRADING_DAYS_PER_YEAR)) := rfl

/-- A concrete ambient standard-normal sample stream for the thread-local
generator: the first invocation's 252 draws are all `0`, the draw the
second invocation starts with is `1`, and everything after is `0` again. -/
def cexStream : ℕ → ℝ := fun k => if k = 252 then 1 else 0

/-- C10 counterpart: `monte_carlo_sharpe` reads the persistent thread-local
generator and takes no seed, so two consecutive invocations with identical
arguments — the second starting at the stream position where the first
left off — return different outputs: the first trial's path is constant
(zero volatility, trial omitted, empty output) while the second trial's
path is not (one Sharpe ratio is produced). -/
theorem monte_carlo_sharpe_consecutive_calls_differ :
    monte_carlo_sharpe 0 1 0 1 cexStream 0 ≠
      monte_carlo_sharpe 0 1 0 1 cexStream TRADING_DAYS_PER_YEAR := by
  have hpath1 : simPath 0 1 cexStream 0 = (List.range 252).map fun _ => (0 : ℝ) := by
    unfold simPath TRADING_DAYS_PER_YEAR
    refine List.map_congr_left fun j hj => ?_
    rw [List.mem_range] at hj
    rw [show (0 : ℕ) + j = j from by omega]
    simp only [cexStream, if_neg (by omega : ¬ j = 252)]
    ring
  have hstats1 : calc_stats (simPath 0 1 cexStream 0) = some (0, 0) := by
    rw [hpath1]
    unfold calc_stats
    rw [if_neg (by rw [List.length_map, List.length_range]; norm_num)]
    norm_num [statrsMean, List.map_const', List.sum_replicate, Real.sqrt_zero]
  have h1 : monte_carlo_sharpe 0 1 0 1 cexStream 0 = [] := by
    unfold monte_carlo_sharpe
    rw [if_neg one_ne_zero, show (1 : ℕ) = 0 + 1 from rfl, mcTrials_succ, mcTrials_zero]
    rw [hstats1]
    exact if_neg (by simp)
  have hmem1 : (1 : ℝ) ∈ simPath 0 1 cexStream TRADING_DAYS_PER_YEAR := by
    unfold simPath
    exact List.mem_map.mpr ⟨0, List.mem_range.mpr (by norm_num [TRADING_DAYS_PER_YEAR]),
      by norm_num [cexStream, TRADING_DAYS_PER_YEAR]⟩
  have hmem0 : (0 : ℝ) ∈ simPath 0 1 cexStream TRADING_DAYS_PER_YEAR := by
    unfold simPath
    exact List.mem_map.mpr ⟨1, List.mem_range.mpr (by norm_num [TRADING_DAYS_PER_YEAR]),
      by norm_num [cexStream, TRADING_DAYS_PER_YEAR]⟩
  have hlen2 : (simPath 0 1 cexStream TRADING_DAYS_PER_YEAR).length = 252 := by
    simp [simPath, TRADING_DAYS_PER_YEAR]
  have hSpos : 0 < ((simPath 0 1 cexStream TRADING_DAYS_PER_YEAR).map fun v =>
      (v - statrsMean (simPath 0 1 cexStream TRADING_DAYS_PER_YEAR)) ^ 2).sum :=
    sum_sq_deviations_pos _ _ 1 0 hmem1 hmem0 one_ne_zero
  have hstats2 : calc_stats (simPath 0 1 cexStream TRADING_DAYS_PER_YEAR) =
      some (statrsMean (simPath 0 1 cexStream TRADING_DAYS_PER_YEAR),
        Real.sqrt ((((simPath 0 1 cexStream TRADING_DAYS_PER_YEAR).map fun v =>
          (v - statrsMean (simPath 0 1 cexStream TRADING_DAYS_PER_YEAR)) ^ 2).sum) /
          (((simPath 0 1 cexStream TRADING_DAYS_PER_YEAR).length : ℝ) - 1))) := by
    unfold calc_stats
    rw [if_neg (by rw [hlen2]; norm_num)]
  have hstd : 0 < Real.sqrt ((((simPath 0 1 cexStream TRADING_DAYS_PER_YEAR).map fun v =>
      (v - statrsMean (simPath 0 1 cexStream TRADING_DAYS_PER_YEAR)) ^ 2).sum) /
      (((simPath 0 1 cexStream TRADING_DAYS_PER_YEAR).length : ℝ) - 1)) := by
    refine Real.sqrt_pos.mpr (div_pos hSpos ?_)
    rw [hlen2]
    norm_num
  have hvol : 0 < Real.sqrt ((((simPath 0 1 cexStream TRADING_DAYS_PER_YEAR).map fun v =>
      (v - statrsMean (simPath 0 1 cexStream TRADING_DAYS_PER_YEAR)) ^ 2).sum) /
      (((simPath 0 1 cexStream TRADING_DAYS_PER_YEAR).length : ℝ) - 1)) *
      Real.sqrt ((TRADING_DAYS_PER_YEAR : ℝ)) :=
    mul_pos hstd (Real.sqrt_pos.mpr (by norm_num [TRADING_DAYS_PER_YEAR]))
  have h2 : monte_carlo_sharpe 0 1 0 1 cexStream TRADING_DAYS_PER_YEAR ≠ [] := by
    unfold monte_carlo_sharpe
    rw [if_neg one_ne_zero, show (1 : ℕ) = 0 + 1 from rfl, mcTrials_succ, mcTrials_zero]
    rw [hstats2]
    exact ne_of_eq_of_ne (if_pos hvol) (List.cons_ne_nil _ _)
  rw [h1]
  exact fun heq => h2 heq.symm

end MarketBacktest
